import Mathlib

/-!
Verification development for the todo-terminal-app reference implementation
(domain model `TodoModel.ts`, storage layer `storage.ts`, value model `Todo.ts`,
and the blessed UI framework `BlessedUIFramework`).

The TypeScript sources are shallowly embedded: JavaScript strings become
`String`, `Date` values become `Nat` (milliseconds since epoch), the file
system becomes an association list from path to file content, and in-place
object mutation (needed for the aliasing contract) is modelled with an
explicit heap of `Todo` values addressed by numeric references.
-/

namespace TodoApp

/-! ## JavaScript string trimming (String.prototype.trim) -/

/-- The ECMA-262 WhiteSpace and LineTerminator code points removed by
JavaScript `String.prototype.trim`. -/
def isJsWhitespace (c : Char) : Bool :=
  c.toNat ∈ [0x9, 0xA, 0xB, 0xC, 0xD, 0x20, 0xA0, 0x1680,
    0x2000, 0x2001, 0x2002, 0x2003, 0x2004, 0x2005, 0x2006, 0x2007,
    0x2008, 0x2009, 0x200A, 0x2028, 0x2029, 0x202F, 0x205F, 0x3000, 0xFEFF]

/-- Strip leading JS whitespace from a character list. -/
def trimStartCL (l : List Char) : List Char := l.dropWhile isJsWhitespace

/-- Strip trailing JS whitespace from a character list. -/
def trimEndCL (l : List Char) : List Char :=
  (l.reverse.dropWhile isJsWhitespace).reverse

/-- Model of JavaScript `s.trim()` on the underlying character list. -/
def jsTrimCL (l : List Char) : List Char := trimEndCL (trimStartCL l)

/-- Model of JavaScript `s.trim()`. -/
def jsTrim (s : String) : String := String.mk (jsTrimCL s.data)

theorem dropWhile_idem (p : α → Bool) (l : List α) :
    (l.dropWhile p).dropWhile p = l.dropWhile p := by
  induction l with
  | nil => rfl
  | cons a l ih =>
    by_cases h : p a
    · simp [List.dropWhile_cons_of_pos h, ih]
    · simp [List.dropWhile_cons_of_neg h, h]

theorem dropWhile_eq_self_of_head (p : α → Bool) (l : List α)
    (h : ∀ a, l.head? = some a → p a = false) : l.dropWhile p = l := by
  cases l with
  | nil => rfl
  | cons a l =>
    have ha : p a = false := h a rfl
    rw [List.dropWhile_cons]
    simp [ha]

theorem head?_dropWhile_false (p : α → Bool) (l : List α) :
    ∀ a, (l.dropWhile p).head? = some a → p a = false := by
  intro a ha
  have h := List.head?_dropWhile_not p l
  rw [ha] at h
  exact h

theorem trimEndCL_idem (l : List Char) : trimEndCL (trimEndCL l) = trimEndCL l := by
  simp [trimEndCL, List.reverse_reverse, dropWhile_idem]

/-- The suffix removal of `trimEndCL` commutes with any prefix removal, on the
reversed list: dropping a whitespace prefix of `l.reverse` leaves a suffix. -/
theorem dropWhile_sublist_suffix (p : α → Bool) (l : List α) :
    ∃ t, l = t ++ l.dropWhile p := by
  induction l with
  | nil => exact ⟨[], rfl⟩
  | cons a l ih =>
    by_cases h : p a
    · obtain ⟨t, ht⟩ := ih
      exact ⟨a :: t, by simp [List.dropWhile_cons_of_pos h, ← ht]⟩
    · exact ⟨[], by simp [List.dropWhile_cons_of_neg h]⟩

theorem getLast?_dropWhile (p : α → Bool) (l : List α)
    (h : l.dropWhile p ≠ []) : (l.dropWhile p).getLast? = l.getLast? := by
  obtain ⟨t, ht⟩ := dropWhile_sublist_suffix p l
  conv_rhs => rw [ht]
  exact (List.getLast?_append_of_ne_nil t h).symm

/-- The head of a fully trimmed list is not whitespace. -/
theorem head?_jsTrimCL_false (l : List Char) :
    ∀ a, (jsTrimCL l).head? = some a → isJsWhitespace a = false := by
  intro a ha
  unfold jsTrimCL trimEndCL trimStartCL at ha
  set A := l.dropWhile isJsWhitespace with hA
  set B := A.reverse.dropWhile isJsWhitespace with hB
  have hBne : B ≠ [] := by
    intro hnil
    rw [hnil] at ha
    simp at ha
  have h1 : B.reverse.head? = B.getLast? := by
    simp [List.head?_reverse]
  have h2 : B.getLast? = A.reverse.getLast? := getLast?_dropWhile _ _ hBne
  have h3 : A.reverse.getLast? = A.head? := by
    simp [List.getLast?_reverse]
  rw [h1, h2, h3] at ha
  exact head?_dropWhile_false isJsWhitespace l a ha

/-- JavaScript trim is idempotent. -/
theorem jsTrimCL_idem (l : List Char) : jsTrimCL (jsTrimCL l) = jsTrimCL l := by
  unfold jsTrimCL
  have h1 : trimStartCL (jsTrimCL l) = jsTrimCL l :=
    dropWhile_eq_self_of_head _ _ (head?_jsTrimCL_false l)
  have h2 : trimEndCL (trimStartCL (jsTrimCL l)) = trimEndCL (jsTrimCL l) := by
    rw [h1]
  calc trimEndCL (trimStartCL (trimEndCL (trimStartCL l)))
      = trimEndCL (trimStartCL (jsTrimCL l)) := rfl
    _ = trimEndCL (jsTrimCL l) := h2
    _ = trimEndCL (trimEndCL (trimStartCL l)) := rfl
    _ = trimEndCL (trimStartCL l) := trimEndCL_idem _

theorem jsTrim_idem (s : String) : jsTrim (jsTrim s) = jsTrim s := by
  simp [jsTrim, jsTrimCL_idem]

/-! ## Todo value model (src/models/Todo.ts)

`Date` values are modelled as `Nat` milliseconds since the epoch.  The
TypeScript interface declares `updatedAt : Date`, but the runtime objects
built by `TodoModel.add` carry no `updatedAt` property at all, so the
runtime value model uses `Option Nat`: `none` is an absent property. -/

/-- Runtime shape of a todo object. -/
structure Todo where
  id : String
  title : String
  description : Option String
  completed : Bool
  createdAt : Nat
  updatedAt : Option Nat
deriving Repr, DecidableEq, Inhabited

/-- TodoValidation.MIN_TITLE_LENGTH -/
def MIN_TITLE_LENGTH : Nat := 1

/-- TodoValidation.MAX_TITLE_LENGTH -/
def MAX_TITLE_LENGTH : Nat := 100

/-- TodoValidation.isValidTitle: the trimmed title length is within 1..100. -/
def isValidTitle (title : String) : Bool :=
  decide (MIN_TITLE_LENGTH ≤ (jsTrim title).length) &&
  decide ((jsTrim title).length ≤ MAX_TITLE_LENGTH)

/-- TodoValidation.sanitizeTitle: trim whitespace. -/
def sanitizeTitle (title : String) : String := jsTrim title

theorem isValidTitle_false_iff (s : String) :
    isValidTitle s = false ↔ ((jsTrim s).length = 0 ∨ 100 < (jsTrim s).length) := by
  simp [isValidTitle, MIN_TITLE_LENGTH, MAX_TITLE_LENGTH]
  omega

/-! ## Textual timestamps

`JSON.stringify` serializes a `Date` through `Date.prototype.toJSON`
(ISO-8601 text, millisecond-exact) and `Storage.load` recovers it with
`new Date(text)`; the two are exact inverses at millisecond precision.
The embedding keeps that contract with an injective decimal rendering of
the millisecond count and its parser. -/

/-- Little-endian base-10 digits, structurally recursive on a fuel bound so
that the kernel can evaluate it. -/
def toDigitsLEFuel : Nat → Nat → List Nat
  | 0, _ => []
  | _ + 1, 0 => []
  | fuel + 1, n + 1 => (n + 1) % 10 :: toDigitsLEFuel fuel ((n + 1) / 10)

/-- Little-endian base-10 digits of a natural number (empty for 0). -/
def toDigitsLE (n : Nat) : List Nat := toDigitsLEFuel n n

/-- Value of a little-endian digit list. -/
def ofDigitsLE : List Nat → Nat
  | [] => 0
  | d :: ds => d + 10 * ofDigitsLE ds

theorem ofDigitsLE_toDigitsLEFuel :
    ∀ (fuel n : Nat), n ≤ fuel → ofDigitsLE (toDigitsLEFuel fuel n) = n := by
  intro fuel
  induction fuel with
  | zero => intro n hn; interval_cases n; rfl
  | succ fuel ih =>
    intro n hn
    cases n with
    | zero => rfl
    | succ m =>
      rw [toDigitsLEFuel, ofDigitsLE]
      rw [ih ((m + 1) / 10) (by omega)]
      exact Nat.mod_add_div (m + 1) 10

theorem ofDigitsLE_toDigitsLE (n : Nat) : ofDigitsLE (toDigitsLE n) = n :=
  ofDigitsLE_toDigitsLEFuel n n (Nat.le_refl n)

theorem toDigitsLEFuel_lt :
    ∀ (fuel n : Nat), ∀ d ∈ toDigitsLEFuel fuel n, d < 10 := by
  intro fuel
  induction fuel with
  | zero => intro n d hd; simp [toDigitsLEFuel] at hd
  | succ fuel ih =>
    intro n d hd
    cases n with
    | zero => simp [toDigitsLEFuel] at hd
    | succ m =>
      rw [toDigitsLEFuel] at hd
      rcases List.mem_cons.mp hd with h1 | h2
      · subst h1; exact Nat.mod_lt _ (by omega)
      · exact ih _ d h2

/-- Each produced digit is below 10. -/
theorem toDigitsLE_lt (n : Nat) : ∀ d ∈ toDigitsLE n, d < 10 :=
  toDigitsLEFuel_lt n n

/-- Decimal digit to character. -/
def digitToChar (d : Nat) : Char := Char.ofNat (48 + d)

/-- Character back to decimal digit value. -/
def charToDigit (c : Char) : Nat := c.toNat - 48

theorem charToDigit_digitToChar (d : Nat) (h : d < 10) :
    charToDigit (digitToChar d) = d := by
  interval_cases d <;> decide

/-- Textual serialized form of a timestamp (model of `Date.toJSON`). -/
def dateToText (n : Nat) : String :=
  String.mk (((toDigitsLE n).reverse).map digitToChar)

/-- Parse the textual timestamp form back (model of `new Date(text)`);
an unparsable text yields the invalid-date placeholder 0. -/
def textToDate (s : String) : Nat :=
  ofDigitsLE ((s.data.map charToDigit).reverse)

theorem textToDate_dateToText (n : Nat) : textToDate (dateToText n) = n := by
  unfold textToDate dateToText
  have hmap : ((toDigitsLE n).reverse.map digitToChar).map charToDigit
      = (toDigitsLE n).reverse := by
    rw [List.map_map]
    have hcongr : List.map (charToDigit ∘ digitToChar) (toDigitsLE n).reverse
        = List.map id (toDigitsLE n).reverse := by
      apply List.map_congr_left
      intro d hd
      simp only [Function.comp_apply, id_eq]
      exact charToDigit_digitToChar d (toDigitsLE_lt n d (List.mem_reverse.mp hd))
    rw [hcongr, List.map_id]
  simp only [String.data]
  rw [hmap, List.reverse_reverse, ofDigitsLE_toDigitsLE]

/-! ## Storage layer (src/utils/storage.ts)

The file system is an association list from path to file content.  A file's
content is either unparsable text (`corrupt`), a parsable JSON document
without a `todos` array (`noTodosField`), or a well-formed storage document
`valid version todos` — the `TodoStorageFormat` record with `version` and
the serialized todos.  In a serialized todo the timestamp fields are text
and an absent `updatedAt` is `none` (`JSON.stringify` drops an absent
property). -/

/-- Serialized (on-disk) shape of one todo record. -/
structure StoredTodo where
  id : String
  title : String
  description : Option String
  completed : Bool
  createdAt : String
  updatedAt : Option String
deriving Repr, DecidableEq, Inhabited

/-- What a file on disk can hold. -/
inductive FileContent where
  | corrupt : FileContent
  | noTodosField : FileContent
  | valid (version : String) (todos : List StoredTodo) : FileContent
deriving Repr, DecidableEq

/-- The file system: an association list from absolute path to content. -/
def FS := List (String × FileContent)

instance : DecidableEq FS := inferInstanceAs (DecidableEq (List (String × FileContent)))

/-- Read a path (first matching entry). -/
def fsRead (fs : FS) (p : String) : Option FileContent :=
  (List.find? (fun e => decide (e.1 = p)) fs).map (fun e => e.2)

/-- Remove every entry for a path. -/
def fsErase (fs : FS) (p : String) : FS :=
  List.filter (fun e => decide (¬ e.1 = p)) fs

/-- Overwrite a path with new content (model of `fs.writeFileSync`). -/
def fsWrite (fs : FS) (p : String) (c : FileContent) : FS :=
  (p, c) :: fsErase fs p

/-- Move a file (model of `fs.renameSync`); no-op when the source is absent. -/
def fsRename (fs : FS) (src dst : String) : FS :=
  match fsRead fs src with
  | none => fs
  | some c => fsWrite (fsErase fs src) dst c

theorem fsRead_fsWrite_self (fs : FS) (p : String) (c : FileContent) :
    fsRead (fsWrite fs p c) p = some c := by
  simp [fsRead, fsWrite, List.find?_cons_of_pos]

theorem find?_fsErase_ne (fs : FS) (p q : String) (h : q ≠ p) :
    List.find? (fun e => decide (e.1 = q)) (fsErase fs p)
      = List.find? (fun e => decide (e.1 = q)) fs := by
  simp only [fsErase]
  induction fs with
  | nil => rfl
  | cons e fs ih =>
    rw [List.filter_cons]
    by_cases he : e.1 = p
    · have hq : ¬ (e.1 = q) := fun hc => h (by rw [← hc]; exact he)
      rw [if_neg (by simp [he])]
      rw [List.find?_cons_of_neg _ (by simp [hq])]
      exact ih
    · rw [if_pos (by simp [he])]
      by_cases hq : e.1 = q
      · rw [List.find?_cons_of_pos _ (by simp [hq]),
          List.find?_cons_of_pos _ (by simp [hq])]
      · rw [List.find?_cons_of_neg _ (by simp [hq]),
          List.find?_cons_of_neg _ (by simp [hq])]
        exact ih

theorem fsRead_fsErase_ne (fs : FS) (p q : String) (h : q ≠ p) :
    fsRead (fsErase fs p) q = fsRead fs q := by
  simp only [fsRead]
  rw [find?_fsErase_ne fs p q h]

theorem fsRead_fsWrite_ne (fs : FS) (p q : String) (c : FileContent) (h : q ≠ p) :
    fsRead (fsWrite fs p c) q = fsRead fs q := by
  simp only [fsWrite, fsRead]
  rw [List.find?_cons_of_neg _
    (by simp only [decide_eq_true_eq]; exact fun hc => h hc.symm)]
  rw [find?_fsErase_ne fs p q h]

/-- Serialize one todo for the JSON document (`JSON.stringify` with
`Date.toJSON`; an absent `updatedAt` is dropped). -/
def serializeTodo (t : Todo) : StoredTodo :=
  { id := t.id
    title := t.title
    description := t.description
    completed := t.completed
    createdAt := dateToText t.createdAt
    updatedAt := t.updatedAt.map dateToText }

/-- Deserialize one stored record (`Storage.load`'s map step):
`createdAt` is parsed back, and `updatedAt` falls back to `createdAt`
when the stored record has none. -/
def deserializeTodo (st : StoredTodo) : Todo :=
  { id := st.id
    title := st.title
    description := st.description
    completed := st.completed
    createdAt := textToDate st.createdAt
    updatedAt := some (match st.updatedAt with
      | some s => textToDate s
      | none => textToDate st.createdAt) }

/-- The schema version string written on every save. -/
def storageVersion : String := "1.0.0"

/-- String form of a caught JavaScript error (template-literal interpolation
of an `Error` object). -/
def errToString (msg : String) : String := "Error: " ++ msg

/-- Storage.save.  `writeFail = some e` injects a failure of the temp-file
`writeFileSync` (permission denied, disk full, ...) whose message is `e`;
the partially written temp file is left corrupt and the final path is
untouched.  On success the temp file is written and then renamed onto the
final path. -/
def storageSave (fs : FS) (filePath : String) (todos : List Todo)
    (writeFail : Option String) : Except (String × FS) FS :=
  let data := FileContent.valid storageVersion (todos.map serializeTodo)
  let tempFile := filePath ++ ".tmp"
  match writeFail with
  | none =>
      let fs1 := fsWrite fs tempFile data
      let fs2 := fsRename fs1 tempFile filePath
      .ok fs2
  | some e =>
      .error ("Failed to save todos: " ++ errToString e,
        fsWrite fs tempFile FileContent.corrupt)

/-- Storage.load with the try/catch still visible: `corrupt` content makes
`JSON.parse` throw. -/
def storageLoadCore (fs : FS) (filePath : String) : Except String (List Todo) :=
  match fsRead fs filePath with
  | none => .ok []
  | some FileContent.corrupt => .error "Unexpected token in JSON"
  | some FileContent.noTodosField => .ok []
  | some (FileContent.valid _ todos) => .ok (todos.map deserializeTodo)

/-- Storage.load: any internal error is caught and degrades to `[]`. -/
def storageLoad (fs : FS) (filePath : String) : List Todo :=
  match storageLoadCore fs filePath with
  | .ok todos => todos
  | .error _ => []

/-! ### File-system operation trace of `Storage.save` -/

/-- One observable file-system side effect. -/
inductive FsOp where
  | mkdir (dir : String) : FsOp
  | write (p : String) (c : FileContent) : FsOp
  | rename (src dst : String) : FsOp
deriving Repr, DecidableEq

/-- Apply one file-system operation to the file-system state
(`mkdirSync` is invisible in the path-to-content map). -/
def applyFsOp (fs : FS) : FsOp → FS
  | FsOp.mkdir _ => fs
  | FsOp.write p c => fsWrite fs p c
  | FsOp.rename src dst => fsRename fs src dst

/-- Directory of a path, model of `path.dirname`. -/
def dirname (s : String) : String :=
  match s.data.reverse.dropWhile (fun c => decide (¬ c = '/')) with
  | [] => "."
  | _ :: rest => String.mk rest.reverse

/-- The sequence of file-system operations `Storage.save` performs: create
the directory, write the serialized document to the temp sibling, rename it
onto the final path.  When the temp write fails, the rename never happens
and the temp file is left with the partial (corrupt) write. -/
def storageSaveOps (filePath : String) (todos : List Todo)
    (writeFail : Option String) : List FsOp :=
  let data := FileContent.valid storageVersion (todos.map serializeTodo)
  let tempFile := filePath ++ ".tmp"
  match writeFail with
  | none => [FsOp.mkdir (dirname filePath), FsOp.write tempFile data,
      FsOp.rename tempFile filePath]
  | some _ => [FsOp.mkdir (dirname filePath), FsOp.write tempFile FileContent.corrupt]

theorem dropWhile_append_of_all (p : α → Bool) (x y : List α)
    (h : ∀ a ∈ x, p a = true) :
    (x ++ y).dropWhile p = y.dropWhile p := by
  induction x with
  | nil => rfl
  | cons a x ih =>
    rw [List.cons_append, List.dropWhile_cons_of_pos (h a (List.mem_cons_self a x))]
    exact ih fun b hb => h b (List.mem_cons_of_mem a hb)

/-- Appending the `.tmp` suffix does not change the directory. -/
theorem dirname_tmp (p : String) : dirname (p ++ ".tmp") = dirname p := by
  unfold dirname
  rw [String.data_append]
  rw [show (String.data ".tmp") = ['.', 't', 'm', 'p'] from rfl]
  rw [List.reverse_append]
  rw [show (['.', 't', 'm', 'p'] : List Char).reverse = ['p', 'm', 't', '.'] from rfl]
  rw [dropWhile_append_of_all _ _ _ (by decide)]

/-- The temp sibling path is distinct from the final path. -/
theorem tmpFile_ne (p : String) : p ++ ".tmp" ≠ p := by
  intro h
  have := congrArg String.length h
  rw [String.length_append,
    show (String.length ".tmp") = 4 from rfl] at this
  omega

/-! ## Domain model (src/models/TodoModel.ts)

A model instance holds the in-memory collection and (through its `Storage`)
the file system.  Non-determinism of the environment is passed explicitly:
the fresh uuid, the current clock, and whether the underlying write fails.
An operation that throws returns `Except.error (message, state)`; the state
travels with the error because a thrown exception does not roll back the
already-performed in-memory mutation. -/

/-- In-memory state of a `TodoModel` plus the file system it writes to. -/
structure ModelState where
  todos : List Todo
  fs : FS
deriving DecidableEq

/-- TodoModel.saveTodos: delegate to Storage.save, rethrowing its error
wrapped in a fresh message. -/
def saveTodos (filePath : String) (fs : FS) (todos : List Todo)
    (writeFail : Option String) : Except (String × FS) FS :=
  match storageSave fs filePath todos writeFail with
  | .ok fs2 => .ok fs2
  | .error (msg, fs2) => .error ("Failed to persist todos: " ++ errToString msg, fs2)

/-- The object literal built by `TodoModel.add`: sanitized title, not
completed, `createdAt` from the clock — and no `updatedAt` property. -/
def newTodoOf (title id : String) (now : Nat) : Todo :=
  { id := id
    title := sanitizeTitle title
    description := none
    completed := false
    createdAt := now
    updatedAt := none }

/-- The validation-failure message thrown by add/updateTitle. -/
def invalidTitleMsg : String :=
  "Invalid title. Must be between 1 and 100 characters."

/-- Replace the first element satisfying the predicate (the in-place
mutation of the object found by `Array.prototype.find`). -/
def modifyFirst (p : α → Bool) (g : α → α) : List α → List α
  | [] => []
  | x :: xs => if p x then g x :: xs else x :: modifyFirst p g xs

/-- TodoModel.add. -/
def addM (filePath : String) (st : ModelState) (title id : String) (now : Nat)
    (writeFail : Option String) : Except (String × ModelState) (Todo × ModelState) :=
  if isValidTitle title = false then .error (invalidTitleMsg, st)
  else
    let t := newTodoOf title id now
    let todos2 := st.todos ++ [t]
    match saveTodos filePath st.fs todos2 writeFail with
    | .ok fs2 => .ok (t, ⟨todos2, fs2⟩)
    | .error (msg, fs2) => .error (msg, ⟨todos2, fs2⟩)

/-- TodoModel.toggleComplete. -/
def toggleM (filePath : String) (st : ModelState) (id : String)
    (writeFail : Option String) :
    Except (String × ModelState) (Option Todo × ModelState) :=
  match st.todos.find? (fun t => decide (t.id = id)) with
  | none => .ok (none, st)
  | some t0 =>
    let todos2 := modifyFirst (fun t => decide (t.id = id))
      (fun t => { t with completed := !t.completed }) st.todos
    match saveTodos filePath st.fs todos2 writeFail with
    | .ok fs2 => .ok (some { t0 with completed := !t0.completed }, ⟨todos2, fs2⟩)
    | .error (msg, fs2) => .error (msg, ⟨todos2, fs2⟩)

/-- TodoModel.updateTitle. -/
def updateTitleM (filePath : String) (st : ModelState) (id newTitle : String)
    (writeFail : Option String) :
    Except (String × ModelState) (Option Todo × ModelState) :=
  if isValidTitle newTitle = false then .error (invalidTitleMsg, st)
  else
    match st.todos.find? (fun t => decide (t.id = id)) with
    | none => .ok (none, st)
    | some t0 =>
      let todos2 := modifyFirst (fun t => decide (t.id = id))
        (fun t => { t with title := sanitizeTitle newTitle }) st.todos
      match saveTodos filePath st.fs todos2 writeFail with
      | .ok fs2 => .ok (some { t0 with title := sanitizeTitle newTitle }, ⟨todos2, fs2⟩)
      | .error (msg, fs2) => .error (msg, ⟨todos2, fs2⟩)

/-- TodoModel.delete. -/
def deleteM (filePath : String) (st : ModelState) (id : String)
    (writeFail : Option String) : Except (String × ModelState) (Bool × ModelState) :=
  let todos2 := st.todos.filter (fun t => decide (¬ t.id = id))
  if todos2.length < st.todos.length then
    match saveTodos filePath st.fs todos2 writeFail with
    | .ok fs2 => .ok (true, ⟨todos2, fs2⟩)
    | .error (msg, fs2) => .error (msg, ⟨todos2, fs2⟩)
  else .ok (false, ⟨todos2, st.fs⟩)

/-- TodoModel.clear. -/
def clearM (filePath : String) (st : ModelState)
    (writeFail : Option String) : Except (String × ModelState) (Nat × ModelState) :=
  match saveTodos filePath st.fs [] writeFail with
  | .ok fs2 => .ok (st.todos.length, ⟨[], fs2⟩)
  | .error (msg, fs2) => .error (msg, ⟨[], fs2⟩)

/-! ## Reference-level model of the domain model (aliasing contract)

JavaScript objects are references into a heap.  To reason about the
defensive-copy contract the heap is explicit: a list of `Todo` values
addressed by index.  `this.todos` is a list of references.  A spread
`{ ...todo }` allocates a fresh object; returning `todo` itself hands out
the internal reference.  Persistence is orthogonal to aliasing and is
omitted in this view. -/

/-- Object heap: reference = index. -/
abbrev Heap := List Todo

/-- Dereference (out-of-range reads give the default object). -/
def hget (h : Heap) (r : Nat) : Todo := h.getD r default

/-- In-place mutation of the object behind a reference. -/
def hset (h : Heap) (r : Nat) (t : Todo) : Heap := h.set r t

/-- Allocate a fresh object. -/
def halloc (h : Heap) (t : Todo) : Nat × Heap := (h.length, h ++ [t])

/-- Allocate many fresh objects. -/
def hallocMany (h : Heap) (ts : List Todo) : List Nat × Heap :=
  (List.range' h.length ts.length, h ++ ts)

/-- The values a caller sees through a list of references. -/
def refValues (h : Heap) (rs : List Nat) : List Todo := rs.map (hget h)

/-- getAll: copy every stored todo into a fresh object. -/
def refGetAll (h : Heap) (refs : List Nat) : List Nat × Heap :=
  hallocMany h (refs.map (hget h))

/-- getById: copy the found todo into a fresh object. -/
def refGetById (h : Heap) (refs : List Nat) (id : String) : Option Nat × Heap :=
  match refs.find? (fun r => decide ((hget h r).id = id)) with
  | none => (none, h)
  | some r =>
    let a := halloc h (hget h r)
    (some a.1, a.2)

/-- getByStatus: filter, then copy each hit. -/
def refGetByStatus (h : Heap) (refs : List Nat) (completed : Bool) :
    List Nat × Heap :=
  hallocMany h
    ((refs.filter (fun r => (hget h r).completed = completed)).map (hget h))

/-- add: allocate the new todo, push the reference — and return that same
reference to the caller. -/
def refAdd (h : Heap) (refs : List Nat) (title id : String) (now : Nat) :
    Nat × List Nat × Heap :=
  let a := halloc h (newTodoOf title id now)
  (a.1, refs ++ [a.1], a.2)

/-- toggleComplete: mutate the found object in place and return the internal
reference itself (no copy). -/
def refToggle (h : Heap) (refs : List Nat) (id : String) : Option Nat × Heap :=
  match refs.find? (fun r => decide ((hget h r).id = id)) with
  | none => (none, h)
  | some r =>
    (some r, hset h r { hget h r with completed := !(hget h r).completed })

/-- updateTitle: mutate the found object in place, then return a fresh copy. -/
def refUpdateTitle (h : Heap) (refs : List Nat) (id newTitle : String) :
    Except String (Option Nat × Heap) :=
  if isValidTitle newTitle = false then .error invalidTitleMsg
  else
    match refs.find? (fun r => decide ((hget h r).id = id)) with
    | none => .ok (none, h)
    | some r =>
      let h2 := hset h r { hget h r with title := sanitizeTitle newTitle }
      let a := halloc h2 (hget h2 r)
      .ok (some a.1, a.2)

/-! ## Panel registry (BlessedUIFramework) -/

/-- The closed tag set of the panel enum. -/
inductive PanelType where
  | todoList : PanelType
  | details : PanelType
  | commandInput : PanelType
  | status : PanelType
deriving DecidableEq, Repr

/-- A registered panel, instrumented with counters for its `blur()` and
`focus()` invocations. -/
structure Panel where
  ptype : PanelType
  focusable : Bool
  blurCount : Nat
  focusCount : Nat
deriving DecidableEq, Repr

/-- Registry state: the panel map plus the current-focus tag. -/
structure Framework where
  panels : List Panel
  currentPanel : PanelType
deriving DecidableEq, Repr

/-- A freshly constructed framework: no panels, focus on the list view. -/
def initFramework : Framework :=
  { panels := [], currentPanel := PanelType.todoList }

/-- Map lookup by tag. -/
def getPanel (ps : List Panel) (t : PanelType) : Option Panel :=
  ps.find? (fun q => decide (q.ptype = t))

/-- Map set by tag (replace or append), the semantics of
`this.panels.set(panel.type, panel)`. -/
def setPanel (ps : List Panel) (p : Panel) : List Panel :=
  if ps.any (fun q => decide (q.ptype = p.ptype)) then
    ps.map (fun q => if q.ptype = p.ptype then p else q)
  else ps ++ [p]

/-- Apply a method call to the panel registered under a tag. -/
def updatePanel (ps : List Panel) (t : PanelType) (g : Panel → Panel) : List Panel :=
  ps.map (fun q => if q.ptype = t then g q else q)

/-- BlessedUIFramework.registerPanel. -/
def registerPanel (fw : Framework) (p : Panel) : Framework :=
  { fw with panels := setPanel fw.panels p }

/-- One `blur()` call observed. -/
def incBlur (p : Panel) : Panel := { p with blurCount := p.blurCount + 1 }

/-- One `focus()` call observed. -/
def incFocus (p : Panel) : Panel := { p with focusCount := p.focusCount + 1 }

/-- BlessedUIFramework.switchToPanel. -/
def switchToPanel (fw : Framework) (t : PanelType) : Framework :=
  match getPanel fw.panels t with
  | none => fw
  | some p =>
    if p.focusable = false then fw
    else
      let fw1 : Framework :=
        match getPanel fw.panels fw.currentPanel with
        | some _ => { fw with panels := updatePanel fw.panels fw.currentPanel incBlur }
        | none => fw
      { panels := updatePanel fw1.panels t incFocus, currentPanel := t }

theorem getPanel_updatePanel_self (ps : List Panel) (t : PanelType) (g : Panel → Panel)
    (hg : ∀ p, (g p).ptype = p.ptype) :
    getPanel (updatePanel ps t g) t = (getPanel ps t).map g := by
  induction ps with
  | nil => rfl
  | cons q ps ih =>
    simp only [updatePanel, List.map_cons]
    by_cases hq : q.ptype = t
    · rw [if_pos hq]
      unfold getPanel
      rw [List.find?_cons_of_pos _ (by simp [hg q, hq]),
        List.find?_cons_of_pos _ (by simp [hq])]
      rfl
    · rw [if_neg hq]
      unfold getPanel
      rw [List.find?_cons_of_neg _ (by simp [hq]),
        List.find?_cons_of_neg _ (by simp [hq])]
      exact ih

theorem getPanel_updatePanel_ne (ps : List Panel) (t t2 : PanelType) (g : Panel → Panel)
    (hg : ∀ p, (g p).ptype = p.ptype) (hne : t2 ≠ t) :
    getPanel (updatePanel ps t g) t2 = getPanel ps t2 := by
  induction ps with
  | nil => rfl
  | cons q ps ih =>
    simp only [updatePanel, List.map_cons]
    by_cases hq : q.ptype = t
    · rw [if_pos hq]
      unfold getPanel
      rw [List.find?_cons_of_neg _ (by simp [hg q, hq]; exact fun hc => hne hc.symm),
        List.find?_cons_of_neg _ (by simp [hq]; exact fun hc => hne hc.symm)]
      exact ih
    · rw [if_neg hq]
      by_cases hq2 : q.ptype = t2
      · unfold getPanel
        rw [List.find?_cons_of_pos _ (by simp [hq2]),
          List.find?_cons_of_pos _ (by simp [hq2])]
      · unfold getPanel
        rw [List.find?_cons_of_neg _ (by simp [hq2]),
          List.find?_cons_of_neg _ (by simp [hq2])]
        exact ih

/-! ## Claim theorems -/

/-- C1: every `Storage.save` serializes the full collection (version string
plus all todos) and writes it only to the temp sibling `filePath ++ ".tmp"`
(same directory, distinguishing suffix, distinct from the final path); the
final path is produced by the single rename of that temp file; and if the
temp-file write fails, the final resource is untouched and a descriptive
error is raised. -/
theorem save_atomic_replace (fs : FS) (filePath : String) (todos : List Todo)
    (wf : Option String) :
    (∀ q c, FsOp.write q c ∈ storageSaveOps filePath todos wf →
      q = filePath ++ ".tmp") ∧
    (filePath ++ ".tmp" ≠ filePath) ∧
    (dirname (filePath ++ ".tmp") = dirname filePath) ∧
    (FsOp.write (filePath ++ ".tmp")
        (FileContent.valid storageVersion (todos.map serializeTodo))
      ∈ storageSaveOps filePath todos none) ∧
    (∀ src dst, FsOp.rename src dst ∈ storageSaveOps filePath todos wf →
      wf = none ∧ src = filePath ++ ".tmp" ∧ dst = filePath) ∧
    (storageSave fs filePath todos none =
      .ok (List.foldl applyFsOp fs (storageSaveOps filePath todos none))) ∧
    (∀ e, wf = some e →
      storageSave fs filePath todos wf =
        .error ("Failed to save todos: " ++ errToString e,
          List.foldl applyFsOp fs (storageSaveOps filePath todos wf)) ∧
      fsRead (List.foldl applyFsOp fs (storageSaveOps filePath todos wf)) filePath
        = fsRead fs filePath) := by
  refine ⟨?_, tmpFile_ne filePath, dirname_tmp filePath, ?_, ?_, ?_, ?_⟩
  · intro q c hmem
    cases wf <;> simp [storageSaveOps] at hmem <;> tauto
  · simp [storageSaveOps]
  · intro src dst hmem
    cases wf <;> simp [storageSaveOps] at hmem
    exact ⟨rfl, hmem.1, hmem.2⟩
  · simp [storageSave, storageSaveOps, applyFsOp]
  · intro e he
    subst he
    constructor
    · simp [storageSave, storageSaveOps, applyFsOp]
    · simp only [storageSaveOps, List.foldl, applyFsOp]
      exact fsRead_fsWrite_ne fs (filePath ++ ".tmp") filePath FileContent.corrupt
        (fun h => tmpFile_ne filePath h.symm)

/-- Witness for C1 at a concrete path, collection and failing write. -/
theorem save_atomic_replace_witness :
    ("data/todos.json" ++ ".tmp" ≠ "data/todos.json") ∧
    (storageSave [] "data/todos.json" [] (some "EACCES") =
      .error ("Failed to save todos: " ++ errToString "EACCES",
        List.foldl applyFsOp [] (storageSaveOps "data/todos.json" [] (some "EACCES")))) ∧
    (fsRead (List.foldl applyFsOp []
        (storageSaveOps "data/todos.json" [] (some "EACCES"))) "data/todos.json"
      = fsRead [] "data/todos.json") := by
  have h := save_atomic_replace [] "data/todos.json" [] (some "EACCES")
  have h6 := h.2.2.2.2.2.2 "EACCES" rfl
  exact ⟨h.2.1, h6.1, h6.2⟩

/-- C4: for every title whose trimmed length is 0 or above 100, `add` and
`updateTitle` throw the validation error and leave the whole state (the
collection and the file system — nothing saved) unchanged, for every model
state and every persistence oracle. -/
theorem invalid_title_rejected (filePath : String) (st : ModelState)
    (title id : String) (now : Nat) (wf : Option String)
    (h : (jsTrim title).length = 0 ∨ 100 < (jsTrim title).length) :
    addM filePath st title id now wf = .error (invalidTitleMsg, st) ∧
    updateTitleM filePath st id title wf = .error (invalidTitleMsg, st) := by
  have hv : isValidTitle title = false := (isValidTitle_false_iff title).mpr h
  constructor
  · simp [addM, hv]
  · simp [updateTitleM, hv]

/-- Witness for C4: the empty title and a 101-character title are both
rejected with the state unchanged. -/
theorem invalid_title_rejected_witness :
    addM "f.json" ⟨[], []⟩ "   " "id-1" 7 none
      = .error (invalidTitleMsg, ⟨[], []⟩) ∧
    updateTitleM "f.json" ⟨[], []⟩ "id-1" "   " none
      = .error (invalidTitleMsg, ⟨[], []⟩) := by
  have h := invalid_title_rejected "f.json" ⟨[], []⟩ "   " "id-1" 7 none
    (Or.inl (by decide))
  exact ⟨h.1, h.2⟩

/-- C6: `Storage.load` never raises — the internal parse error is caught and
every failure shape (missing file, unparsable content, missing todos array)
degrades to the empty collection; a parsed record gets its textual
timestamps deserialized, with a missing `updatedAt` falling back to that
record's `createdAt`. -/
theorem load_total_with_fallback (fs : FS) (p : String) :
    (∀ msg, storageLoadCore fs p = .error msg → storageLoad fs p = []) ∧
    (fsRead fs p = none → storageLoad fs p = []) ∧
    (fsRead fs p = some FileContent.corrupt → storageLoad fs p = []) ∧
    (fsRead fs p = some FileContent.noTodosField → storageLoad fs p = []) ∧
    (∀ v ts, fsRead fs p = some (FileContent.valid v ts) →
      storageLoad fs p = ts.map deserializeTodo) ∧
    (∀ st : StoredTodo, (deserializeTodo st).createdAt = textToDate st.createdAt) ∧
    (∀ (st : StoredTodo) (s : String), st.updatedAt = some s →
      (deserializeTodo st).updatedAt = some (textToDate s)) ∧
    (∀ st : StoredTodo, st.updatedAt = none →
      (deserializeTodo st).updatedAt = some (textToDate st.createdAt)) := by
  refine ⟨?_, ?_, ?_, ?_, ?_, ?_, ?_, ?_⟩
  · intro msg hmsg
    simp [storageLoad, hmsg]
  · intro h; simp [storageLoad, storageLoadCore, h]
  · intro h; simp [storageLoad, storageLoadCore, h]
  · intro h; simp [storageLoad, storageLoadCore, h]
  · intro v ts h; simp [storageLoad, storageLoadCore, h]
  · intro st; rfl
  · intro st s h; simp [deserializeTodo, h]
  · intro st h; simp [deserializeTodo, h]

/-- Witness for C6: a missing file, a corrupt file and a record without
`updatedAt`, all at concrete inputs. -/
theorem load_total_with_fallback_witness :
    storageLoad [] "data/todos.json" = [] ∧
    storageLoad [("data/todos.json", FileContent.corrupt)] "data/todos.json" = [] ∧
    (deserializeTodo ⟨"id-1", "T", none, false, dateToText 9, none⟩).updatedAt
      = some (textToDate (dateToText 9)) := by
  refine ⟨?_, ?_, ?_⟩
  · exact (load_total_with_fallback [] "data/todos.json").2.1 (by decide)
  · exact (load_total_with_fallback [("data/todos.json", FileContent.corrupt)]
      "data/todos.json").2.2.1 (by decide)
  · exact (load_total_with_fallback [] "data/todos.json").2.2.2.2.2.2.2
      ⟨"id-1", "T", none, false, dateToText 9, none⟩ rfl

/-- C7: when the persistence step of a mutating call fails, the failure
propagates out of `add`/`toggleComplete`/`updateTitle`/`delete`/`clear` as
an error carrying the wrapped message (not swallowed), and the state it
leaves behind has the in-memory collection already mutated while the final
resource on disk is unchanged — memory and disk diverge. -/
theorem persistence_failure_propagates (filePath : String) (st : ModelState)
    (title id newTitle : String) (now : Nat) (e : String) :
    let emsg := "Failed to persist todos: " ++
      errToString ("Failed to save todos: " ++ errToString e)
    let badFs := fsWrite st.fs (filePath ++ ".tmp") FileContent.corrupt
    (isValidTitle title = true →
      addM filePath st title id now (some e) =
        .error (emsg, ⟨st.todos ++ [newTodoOf title id now], badFs⟩)) ∧
    (∀ t0, st.todos.find? (fun t => decide (t.id = id)) = some t0 →
      toggleM filePath st id (some e) =
        .error (emsg, ⟨modifyFirst (fun t => decide (t.id = id))
          (fun t => { t with completed := !t.completed }) st.todos, badFs⟩)) ∧
    (isValidTitle newTitle = true →
      ∀ t0, st.todos.find? (fun t => decide (t.id = id)) = some t0 →
      updateTitleM filePath st id newTitle (some e) =
        .error (emsg, ⟨modifyFirst (fun t => decide (t.id = id))
          (fun t => { t with title := sanitizeTitle newTitle }) st.todos, badFs⟩)) ∧
    ((st.todos.filter (fun t => decide (¬ t.id = id))).length < st.todos.length →
      deleteM filePath st id (some e) =
        .error (emsg, ⟨st.todos.filter (fun t => decide (¬ t.id = id)), badFs⟩)) ∧
    (clearM filePath st (some e) = .error (emsg, ⟨[], badFs⟩)) ∧
    (fsRead badFs filePath = fsRead st.fs filePath) := by
  intro emsg badFs
  have hdisk : fsRead badFs filePath = fsRead st.fs filePath :=
    fsRead_fsWrite_ne st.fs (filePath ++ ".tmp") filePath FileContent.corrupt
      (fun h => tmpFile_ne filePath h.symm)
  refine ⟨?_, ?_, ?_, ?_, ?_, hdisk⟩
  · intro hv
    simp [addM, hv, saveTodos, storageSave, emsg, badFs]
  · intro t0 hfind
    simp [toggleM, hfind, saveTodos, storageSave, emsg, badFs]
  · intro hv t0 hfind
    simp [updateTitleM, hv, hfind, saveTodos, storageSave, emsg, badFs]
  · intro hdel
    simp only [decide_not] at hdel
    simp [deleteM, saveTodos, storageSave, emsg, badFs, hdel]
  · simp [clearM, saveTodos, storageSave, emsg, badFs]

/-- Witness for C7 on a one-element collection with a failing disk. -/
theorem persistence_failure_propagates_witness :
    addM "f.json" ⟨[⟨"a1", "T", none, false, 0, none⟩], []⟩ "New" "a2" 3 (some "EIO")
      = .error ("Failed to persist todos: " ++
          errToString ("Failed to save todos: " ++ errToString "EIO"),
        ⟨[⟨"a1", "T", none, false, 0, none⟩, newTodoOf "New" "a2" 3],
          fsWrite [] ("f.json" ++ ".tmp") FileContent.corrupt⟩) ∧
    clearM "f.json" ⟨[⟨"a1", "T", none, false, 0, none⟩], []⟩ (some "EIO")
      = .error ("Failed to persist todos: " ++
          errToString ("Failed to save todos: " ++ errToString "EIO"),
        ⟨[], fsWrite [] ("f.json" ++ ".tmp") FileContent.corrupt⟩) := by
  have h := persistence_failure_propagates "f.json"
    ⟨[⟨"a1", "T", none, false, 0, none⟩], []⟩ "New" "a2" "N2" 3 "EIO"
  exact ⟨h.1 (by decide), h.2.2.2.2.1⟩

/-- Value of a todo after the round trip through the persisted form:
`updatedAt` is backfilled from `createdAt` when absent. -/
def backfillTodo (t : Todo) : Todo :=
  { t with updatedAt := some (t.updatedAt.getD t.createdAt) }

theorem deserializeTodo_serializeTodo (t : Todo) :
    deserializeTodo (serializeTodo t) = backfillTodo t := by
  cases t with
  | mk id title description completed createdAt updatedAt =>
    cases updatedAt <;>
      simp [serializeTodo, deserializeTodo, backfillTodo, textToDate_dateToText,
        Option.getD, Option.map]

/-- C5 (amended): `load` after a successful `save` returns the collection
with every field preserved — timestamps round-trip exactly through their
textual form — except that `updatedAt` comes back defined on every record,
backfilled from `createdAt` on records that had none (which is every record
the model itself builds, since `add` never sets `updatedAt`). -/
theorem save_load_roundtrip_backfills (fs : FS) (filePath : String)
    (todos : List Todo) (fs2 : FS)
    (h : storageSave fs filePath todos none = .ok fs2) :
    storageLoad fs2 filePath = todos.map backfillTodo := by
  have hfs2 : fs2 = fsRename
      (fsWrite fs (filePath ++ ".tmp")
        (FileContent.valid storageVersion (todos.map serializeTodo)))
      (filePath ++ ".tmp") filePath := by
    simpa [storageSave] using h.symm
  have hread : fsRead fs2 filePath
      = some (FileContent.valid storageVersion (todos.map serializeTodo)) := by
    rw [hfs2]
    unfold fsRename
    rw [fsRead_fsWrite_self]
    exact fsRead_fsWrite_self _ _ _
  simp only [storageLoad, storageLoadCore, hread]
  rw [List.map_map]
  apply List.map_congr_left
  intro t _
  simp only [Function.comp_apply]
  exact deserializeTodo_serializeTodo t

/-- Witness for C5 (amended) at a concrete collection built by one add. -/
theorem save_load_roundtrip_backfills_witness :
    storageLoad
      (match storageSave [] "todos.json" [newTodoOf "Buy milk" "id-1" 5] none with
        | .ok fs2 => fs2
        | .error x => x.2) "todos.json"
      = [backfillTodo (newTodoOf "Buy milk" "id-1" 5)] := by
  exact save_load_roundtrip_backfills [] "todos.json"
    [newTodoOf "Buy milk" "id-1" 5] _ rfl

/-- C5 is false as stated: a collection built by a single `add` does not
survive `load ∘ save` unchanged — the reloaded record acquires an
`updatedAt` (backfilled from `createdAt`) that the original, built without
one, never had. -/
theorem save_load_roundtrip_cex :
    (addM "todos.json" ⟨[], []⟩ "Buy milk" "id-1" 5 none).toOption.map
        (fun r => r.2.todos) = some [newTodoOf "Buy milk" "id-1" 5] ∧
    storageLoad
      (match storageSave [] "todos.json" [newTodoOf "Buy milk" "id-1" 5] none with
        | .ok fs2 => fs2
        | .error x => x.2) "todos.json"
      ≠ [newTodoOf "Buy milk" "id-1" 5] := by
  constructor
  · decide
  · decide

/-- C3: the code never sets `updatedAt` — the object literal built by `add`
carries no `updatedAt` property (despite the `Todo` interface declaring it
required and auto-set), and `toggleComplete`/`updateTitle` do not refresh
it: after add, toggle and updateTitle the stored record still has none. -/
theorem updatedAt_never_set :
    (newTodoOf "task" "id-1" 5).updatedAt = none ∧
    (newTodoOf "task" "id-1" 5).createdAt = 5 ∧
    (addM "f.json" ⟨[], []⟩ "task" "id-1" 5 none).toOption.map
      (fun r => r.1.updatedAt) = some none ∧
    (toggleM "f.json" ⟨[newTodoOf "task" "id-1" 5], []⟩ "id-1" none).toOption.map
      (fun r => r.2.todos.map (fun t => t.updatedAt)) = some [none] ∧
    (updateTitleM "f.json" ⟨[newTodoOf "task" "id-1" 5], []⟩ "id-1" "new name"
        none).toOption.map
      (fun r => r.2.todos.map (fun t => t.updatedAt)) = some [none] := by
  refine ⟨rfl, rfl, by decide, by decide, by decide⟩

/-! ### Reachable collections (C9) -/

/-- Collections reachable through the domain model's own operations,
starting from an empty store: the exact list transformations performed by
`addM`, `toggleM`, `updateTitleM`, `deleteM` and `clearM` (in both their
success and persistence-failure branches the in-memory list is the same),
plus a reload of the model's own serialized save. -/
inductive ReachableTodos : List Todo → Prop where
  | empty : ReachableTodos []
  | add (l : List Todo) (title id : String) (now : Nat)
      (h : ReachableTodos l) (hv : isValidTitle title = true) :
      ReachableTodos (l ++ [newTodoOf title id now])
  | toggle (l : List Todo) (id : String) (h : ReachableTodos l) :
      ReachableTodos (modifyFirst (fun t => decide (t.id = id))
        (fun t => { t with completed := !t.completed }) l)
  | update (l : List Todo) (id newTitle : String)
      (h : ReachableTodos l) (hv : isValidTitle newTitle = true) :
      ReachableTodos (modifyFirst (fun t => decide (t.id = id))
        (fun t => { t with title := sanitizeTitle newTitle }) l)
  | del (l : List Todo) (id : String) (h : ReachableTodos l) :
      ReachableTodos (l.filter (fun t => decide (¬ t.id = id)))
  | clearAll (l : List Todo) (h : ReachableTodos l) : ReachableTodos []
  | reload (l : List Todo) (h : ReachableTodos l) :
      ReachableTodos ((l.map serializeTodo).map deserializeTodo)

theorem mem_modifyFirst (p : α → Bool) (g : α → α) (l : List α) :
    ∀ t ∈ modifyFirst p g l, t ∈ l ∨ ∃ u, u ∈ l ∧ t = g u := by
  induction l with
  | nil => intro t ht; simp [modifyFirst] at ht
  | cons x xs ih =>
    intro t ht
    rw [modifyFirst] at ht
    by_cases hx : p x
    · rw [if_pos hx] at ht
      rcases List.mem_cons.mp ht with h1 | h2
      · exact Or.inr ⟨x, List.mem_cons_self x xs, h1⟩
      · exact Or.inl (List.mem_cons_of_mem x h2)
    · rw [if_neg hx] at ht
      rcases List.mem_cons.mp ht with h1 | h2
      · exact Or.inl (h1 ▸ List.mem_cons_self x xs)
      · rcases ih t h2 with h3 | ⟨u, hu, he⟩
        · exact Or.inl (List.mem_cons_of_mem x h3)
        · exact Or.inr ⟨u, List.mem_cons_of_mem x hu, he⟩

theorem isValidTitle_true_bounds (s : String) (hv : isValidTitle s = true) :
    1 ≤ (jsTrim s).length ∧ (jsTrim s).length ≤ 100 := by
  simp [isValidTitle, MIN_TITLE_LENGTH, MAX_TITLE_LENGTH] at hv
  exact hv

/-- C9: every title a successful `add` or `updateTitle` stores is the
trimmed caller input, so in every collection reachable through the model's
operations every todo's title is its own trim and its length is between 1
and 100 — no persisted title carries leading or trailing whitespace. -/
theorem reachable_titles_trimmed (l : List Todo) (h : ReachableTodos l) :
    ∀ t ∈ l, jsTrim t.title = t.title ∧
      1 ≤ t.title.length ∧ t.title.length ≤ 100 := by
  induction h with
  | empty => intro t ht; simp at ht
  | add l title id now _ hv ih =>
    intro t ht
    rcases List.mem_append.mp ht with h1 | h2
    · exact ih t h1
    · have he : t = newTodoOf title id now := by simpa using h2
      subst he
      refine ⟨?_, ?_⟩
      · show jsTrim (sanitizeTitle title) = sanitizeTitle title
        exact jsTrim_idem title
      · show 1 ≤ (sanitizeTitle title).length ∧ (sanitizeTitle title).length ≤ 100
        exact isValidTitle_true_bounds title hv
  | toggle l id _ ih =>
    intro t ht
    rcases mem_modifyFirst _ _ l t ht with h1 | ⟨u, hu, he⟩
    · exact ih t h1
    · subst he
      exact ih u hu
  | update l id newTitle _ hv ih =>
    intro t ht
    rcases mem_modifyFirst _ _ l t ht with h1 | ⟨u, hu, he⟩
    · exact ih t h1
    · subst he
      refine ⟨jsTrim_idem newTitle, isValidTitle_true_bounds newTitle hv⟩
  | del l id _ ih =>
    intro t ht
    exact ih t (List.mem_of_mem_filter ht)
  | clearAll l _ _ =>
    intro t ht; simp at ht
  | reload l _ ih =>
    intro t ht
    rw [List.map_map] at ht
    rcases List.mem_map.mp ht with ⟨u, hu, he⟩
    have : t = backfillTodo u := by
      rw [← he]; exact deserializeTodo_serializeTodo u
    subst this
    exact ih u hu

/-- Witness for C9: a two-step reachable collection (an add of a padded
title, then a toggle) whose single todo has a trimmed, bounded title. -/
theorem reachable_titles_trimmed_witness :
    jsTrim (newTodoOf "  Buy milk  " "id-1" 5).title
        = (newTodoOf "  Buy milk  " "id-1" 5).title ∧
    1 ≤ (newTodoOf "  Buy milk  " "id-1" 5).title.length ∧
    (newTodoOf "  Buy milk  " "id-1" 5).title.length ≤ 100 := by
  have hr : ReachableTodos ([] ++ [newTodoOf "  Buy milk  " "id-1" 5]) :=
    ReachableTodos.add [] "  Buy milk  " "id-1" 5 ReachableTodos.empty (by decide)
  exact reachable_titles_trimmed _ hr (newTodoOf "  Buy milk  " "id-1" 5)
    (by simp)

/-! ### Aliasing lemmas (C2) -/

theorem hget_append_left (h : Heap) (ts : List Todo) (r : Nat)
    (hr : r < h.length) : hget (h ++ ts) r = hget h r := by
  simp only [hget, List.getD_eq_getElem?_getD]
  rw [List.getElem?_append_left hr]

theorem hget_hset_ne (h : Heap) (r1 r2 : Nat) (t : Todo) (hne : r2 ≠ r1) :
    hget (hset h r2 t) r1 = hget h r1 := by
  simp only [hget, hset, List.getD_eq_getElem?_getD]
  rw [List.getElem?_set_ne hne]

theorem refValues_hset_notin (h : Heap) (rs : List Nat) (r2 : Nat) (t : Todo)
    (hnot : r2 ∉ rs) : refValues (hset h r2 t) rs = refValues h rs := by
  unfold refValues
  apply List.map_congr_left
  intro r hr
  exact hget_hset_ne h r r2 t (fun he => hnot (he ▸ hr))

theorem refValues_append (h : Heap) (ts : List Todo) (rs : List Nat)
    (hb : ∀ r ∈ rs, r < h.length) : refValues (h ++ ts) rs = refValues h rs := by
  unfold refValues
  apply List.map_congr_left
  intro r hr
  exact hget_append_left h ts r (hb r hr)

theorem mem_range'_ge {s n m : Nat} (hm : m ∈ List.range' s n) : s ≤ m := by
  rcases List.mem_range'.mp hm with ⟨i, _, rfl⟩
  omega

/-- C2 is false as stated: `add` returns the very object it pushed into the
internal array, so mutating the returned todo changes what a subsequent
`getAll` reports. -/
theorem defensive_copy_cex :
    (let s := refAdd ([] : Heap) [] "Buy milk" "id-1" 5
     let h1 := hset s.2.2 s.1 { hget s.2.2 s.1 with title := "corrupted" }
     refValues (refGetAll h1 s.2.1).2 (refGetAll h1 s.2.1).1
       ≠ refValues (refGetAll s.2.2 s.2.1).2 (refGetAll s.2.2 s.2.1).1) := by
  decide

/-- C2 (amended): `getAll`, `getById`, `getByStatus` and `updateTitle` hand
back references to freshly allocated copies — not internal ones — so
mutating any of them leaves every subsequent read unchanged; but `add` and
`toggleComplete` return the live internal reference itself. -/
theorem defensive_copy_contract (h : Heap) (refs : List Nat)
    (hinv : ∀ r ∈ refs, r < h.length) :
    (∀ r2 ∈ (refGetAll h refs).1, r2 ∉ refs ∧ ∀ t,
      refValues (hset (refGetAll h refs).2 r2 t) refs = refValues h refs) ∧
    (∀ id r2 h2, refGetById h refs id = (some r2, h2) → r2 ∉ refs ∧ ∀ t,
      refValues (hset h2 r2 t) refs = refValues h refs) ∧
    (∀ c, ∀ r2 ∈ (refGetByStatus h refs c).1, r2 ∉ refs ∧ ∀ t,
      refValues (hset (refGetByStatus h refs c).2 r2 t) refs = refValues h refs) ∧
    (∀ id newTitle r2 h2, refUpdateTitle h refs id newTitle = .ok (some r2, h2) →
      r2 ∉ refs ∧ ∀ t,
      refValues (hset h2 r2 t) refs = refValues h2 refs) ∧
    (∀ title id now, (refAdd h refs title id now).1 ∈ (refAdd h refs title id now).2.1) ∧
    (∀ id r2 h2, refToggle h refs id = (some r2, h2) → r2 ∈ refs) := by
  have hfresh : ∀ r2, h.length ≤ r2 → r2 ∉ refs :=
    fun r2 hle hr2 => absurd (hinv r2 hr2) (by omega)
  refine ⟨?_, ?_, ?_, ?_, ?_, ?_⟩
  · intro r2 hr2
    have hge : h.length ≤ r2 := mem_range'_ge hr2
    refine ⟨hfresh r2 hge, fun t => ?_⟩
    rw [refValues_hset_notin _ _ _ _ (hfresh r2 hge)]
    exact refValues_append h _ refs hinv
  · intro id r2 h2 heq
    unfold refGetById at heq
    cases hfind : refs.find? (fun r => decide ((hget h r).id = id)) with
    | none => rw [hfind] at heq; simp at heq
    | some r =>
      rw [hfind] at heq
      simp only [halloc, Prod.mk.injEq, Option.some.injEq] at heq
      obtain ⟨hr2, hh2⟩ := heq
      subst hr2 hh2
      refine ⟨hfresh h.length (Nat.le_refl _), fun t => ?_⟩
      rw [refValues_hset_notin _ _ _ _ (hfresh h.length (Nat.le_refl _))]
      exact refValues_append h _ refs hinv
  · intro c r2 hr2
    have hge : h.length ≤ r2 := mem_range'_ge hr2
    refine ⟨hfresh r2 hge, fun t => ?_⟩
    rw [refValues_hset_notin _ _ _ _ (hfresh r2 hge)]
    exact refValues_append h _ refs hinv
  · intro id newTitle r2 h2 heq
    unfold refUpdateTitle at heq
    by_cases hv : isValidTitle newTitle = false
    · rw [if_pos hv] at heq; exact absurd heq (by simp)
    · rw [if_neg hv] at heq
      cases hfind : refs.find? (fun r => decide ((hget h r).id = id)) with
      | none => rw [hfind] at heq; simp at heq
      | some r =>
        rw [hfind] at heq
        simp only [halloc, Prod.mk.injEq, Option.some.injEq, Except.ok.injEq] at heq
        obtain ⟨hr2, hh2⟩ := heq
        have hlen : (hset h r { hget h r with title := sanitizeTitle newTitle }).length
            = h.length := List.length_set h r _
        subst hr2 hh2
        rw [hlen]
        refine ⟨hfresh h.length (Nat.le_refl _), fun t => ?_⟩
        apply refValues_hset_notin
        rw [← hlen]
        intro hmem
        have := hinv _ hmem
        omega
  · intro title id now
    simp [refAdd, halloc]
  · intro id r2 h2 heq
    unfold refToggle at heq
    cases hfind : refs.find? (fun r => decide ((hget h r).id = id)) with
    | none => rw [hfind] at heq; simp at heq
    | some r =>
      rw [hfind] at heq
      simp only [Prod.mk.injEq, Option.some.injEq] at heq
      exact heq.1 ▸ List.mem_of_find?_eq_some hfind

/-- Witness for C2 (amended) on a one-todo heap: the getAll copy is fresh
and mutating it leaves the model's view unchanged, while add and toggle
hand back internal references. -/
theorem defensive_copy_contract_witness :
    (1 ∉ [0] ∧
      refValues
        (hset (refGetAll [⟨"id-1", "A", none, false, 0, none⟩] [0]).2 1
          ⟨"id-1", "hacked", none, true, 9, none⟩) [0]
        = refValues [⟨"id-1", "A", none, false, 0, none⟩] [0]) ∧
    (refAdd [⟨"id-1", "A", none, false, 0, none⟩] [0] "B" "id-2" 3).1
      ∈ (refAdd [⟨"id-1", "A", none, false, 0, none⟩] [0] "B" "id-2" 3).2.1 := by
  have h := defensive_copy_contract [⟨"id-1", "A", none, false, 0, none⟩] [0]
    (by decide)
  refine ⟨?_, h.2.2.2.2.1 "B" "id-2" 3⟩
  have h1 := h.1 1 (by decide)
  exact ⟨h1.1, h1.2 ⟨"id-1", "hacked", none, true, 9, none⟩⟩

/-! ### Focus-contract lemmas (C8, C10) -/

theorem switchToPanel_found (fw : Framework) (t : PanelType) (p q : Panel)
    (hp : getPanel fw.panels t = some p) (hf : p.focusable = true)
    (hq : getPanel fw.panels fw.currentPanel = some q) :
    switchToPanel fw t =
      { panels := updatePanel (updatePanel fw.panels fw.currentPanel incBlur)
          t incFocus,
        currentPanel := t } := by
  unfold switchToPanel
  rw [hp, hq]
  simp [hf]

/-- C8: after registering panel A (holding initial focus) and panel B on a
fresh framework, `switchToPanel B.ptype` blurs A exactly once, focuses B
exactly once and moves current-focus to B's tag; and `switchToPanel` on an
unregistered or non-focusable tag is a silent no-op: the whole framework
state — current focus included — is unchanged and no blur or focus count
moves. -/
theorem focus_contract (A B : Panel) (fw : Framework) (t : PanelType)
    (hA : A.ptype = PanelType.todoList)
    (hBA : B.ptype ≠ A.ptype)
    (hBf : B.focusable = true)
    (hA0 : A.blurCount = 0) (hB1 : B.focusCount = 0) :
    (let fw2 := switchToPanel (registerPanel (registerPanel initFramework A) B)
      B.ptype
     getPanel fw2.panels A.ptype = some { A with blurCount := 1 } ∧
     getPanel fw2.panels B.ptype = some { B with focusCount := 1 } ∧
     fw2.currentPanel = B.ptype) ∧
    (getPanel fw.panels t = none → switchToPanel fw t = fw) ∧
    (∀ p, getPanel fw.panels t = some p → p.focusable = false →
      switchToPanel fw t = fw) := by
  have hAB : A.ptype ≠ B.ptype := fun h => hBA h.symm
  have hBt : B.ptype ≠ PanelType.todoList := fun h => hBA (h.trans hA.symm)
  refine ⟨?_, ?_, ?_⟩
  · have h1 : registerPanel (registerPanel initFramework A) B
        = { panels := [A, B], currentPanel := PanelType.todoList } := by
      simp [registerPanel, initFramework, setPanel, hAB]
    have h3 : getPanel [A, B] B.ptype = some B := by
      unfold getPanel
      rw [List.find?_cons_of_neg _ (by simp [hAB]),
        List.find?_cons_of_pos _ (by simp)]
    have h4 : getPanel [A, B] PanelType.todoList = some A := by
      unfold getPanel
      rw [List.find?_cons_of_pos _ (by simp [hA])]
    have h5 : updatePanel [A, B] PanelType.todoList incBlur = [incBlur A, B] := by
      simp [updatePanel, hA, hBt]
    have h6 : updatePanel [incBlur A, B] B.ptype incFocus
        = [incBlur A, incFocus B] := by
      simp [updatePanel, incBlur, hAB]
    have h7 : switchToPanel
        ({ panels := [A, B], currentPanel := PanelType.todoList } : Framework)
          B.ptype
        = { panels := [incBlur A, incFocus B], currentPanel := B.ptype } := by
      rw [switchToPanel_found _ _ B A h3 hBf h4]
      simp only [h5, h6]
    rw [h1, h7]
    refine ⟨?_, ?_, rfl⟩
    · unfold getPanel
      rw [List.find?_cons_of_pos _ (by simp [incBlur])]
      simp [incBlur, hA0]
    · unfold getPanel
      rw [List.find?_cons_of_neg _ (by simp [incBlur, hAB]),
        List.find?_cons_of_pos _ (by simp [incFocus])]
      simp [incFocus, hB1]
  · intro hnone
    unfold switchToPanel
    rw [hnone]
  · intro p hp hnf
    unfold switchToPanel
    rw [hp]
    simp [hnf]

/-- Witness for C8 at two concrete panels and a no-op switch on an
unregistered tag of a fresh framework. -/
theorem focus_contract_witness :
    (let fw2 := switchToPanel (registerPanel (registerPanel initFramework
        ⟨PanelType.todoList, true, 0, 0⟩) ⟨PanelType.details, true, 0, 0⟩)
      PanelType.details
     getPanel fw2.panels PanelType.todoList
        = some ⟨PanelType.todoList, true, 1, 0⟩ ∧
     getPanel fw2.panels PanelType.details
        = some ⟨PanelType.details, true, 0, 1⟩ ∧
     fw2.currentPanel = PanelType.details) ∧
    switchToPanel initFramework PanelType.commandInput = initFramework := by
  have h := focus_contract ⟨PanelType.todoList, true, 0, 0⟩
    ⟨PanelType.details, true, 0, 0⟩ initFramework PanelType.commandInput
    rfl (by decide) rfl rfl rfl
  exact ⟨h.1, h.2.1 (by decide)⟩

/-- C10: `switchToPanel` on the tag that already holds focus is not a no-op
— when that tag is registered and focusable its own panel is blurred and
then refocused, each exactly once, and current-focus is unchanged. -/
theorem switchTo_current_refocuses (fw : Framework) (p : Panel)
    (hp : getPanel fw.panels fw.currentPanel = some p)
    (hf : p.focusable = true) :
    switchToPanel fw fw.currentPanel =
      { panels := updatePanel (updatePanel fw.panels fw.currentPanel incBlur)
          fw.currentPanel incFocus,
        currentPanel := fw.currentPanel } ∧
    getPanel (switchToPanel fw fw.currentPanel).panels fw.currentPanel
      = some (incFocus (incBlur p)) ∧
    getPanel (switchToPanel fw fw.currentPanel).panels fw.currentPanel
      ≠ some p ∧
    (switchToPanel fw fw.currentPanel).currentPanel = fw.currentPanel := by
  have h1 := switchToPanel_found fw fw.currentPanel p p hp hf hp
  have h2 : getPanel (switchToPanel fw fw.currentPanel).panels fw.currentPanel
      = some (incFocus (incBlur p)) := by
    rw [h1]
    show getPanel (updatePanel (updatePanel fw.panels fw.currentPanel incBlur)
      fw.currentPanel incFocus) fw.currentPanel = _
    rw [getPanel_updatePanel_self _ _ incFocus (fun q => rfl),
      getPanel_updatePanel_self _ _ incBlur (fun q => rfl), hp]
    rfl
  refine ⟨h1, h2, ?_, by rw [h1]⟩
  rw [h2]
  intro hcontra
  have he : incFocus (incBlur p) = p := by
    exact Option.some.inj hcontra
  have := congrArg Panel.blurCount he
  simp [incFocus, incBlur] at this

/-- Witness for C10 on a one-panel framework focused on its own tag. -/
theorem switchTo_current_refocuses_witness :
    getPanel (switchToPanel
        { panels := [⟨PanelType.todoList, true, 0, 0⟩],
          currentPanel := PanelType.todoList } PanelType.todoList).panels
      PanelType.todoList
      = some ⟨PanelType.todoList, true, 1, 1⟩ ∧
    (switchToPanel
        { panels := [⟨PanelType.todoList, true, 0, 0⟩],
          currentPanel := PanelType.todoList } PanelType.todoList).currentPanel
      = PanelType.todoList := by
  have h := switchTo_current_refocuses
    { panels := [⟨PanelType.todoList, true, 0, 0⟩],
      currentPanel := PanelType.todoList } ⟨PanelType.todoList, true, 0, 0⟩
    (by decide) rfl
  exact ⟨h.2.1, h.2.2.2⟩

end TodoApp
